import Mathlib

/-!
Shallow embedding of `src/r2.ts` (`CloudflareR2FileSystem`).

The TypeScript class composes three pieces: a path-to-key codec
(`getR2Key` / `getLocalPath`), an in-memory metadata cache (a `Map` from
object key to `{size, lastModified, etag}`), and the public async
operations (`readFile`, `writeFile`, `exists`, `deleteFile`, `readDir`,
`deleteDir`, `stat`) that call the S3-compatible store.

Modelling conventions:
- Strings are Lean `String`s; JavaScript string indices (UTF-16 code
  units) are modelled as character indices, which coincide on the ASCII
  paths the properties quantify over; the helpers `jsStartsWith`,
  `jsEndsWith`, `jsLen`, `jsDrop` mirror `startsWith` / `endsWith` /
  `.length` / `slice(n)` / `substring(n)`.
- The `Map` cache is an association list with the same `get` / `has` /
  `set` / `delete` behaviour (the code never iterates the cache).
- Each async store call is an explicit response parameter of type
  `Except StoreErr _`: the operation functions embed the body of the
  corresponding method, branching on the response exactly where the
  TypeScript `try`/`catch` does.  A thrown error is modelled as an
  `Except.error` result paired with the (unchanged or changed) state.
- Timestamps (`new Date()`, `LastModified`) are naturals.
- An ideal in-memory store (`Store`) provides the deterministic
  responses get/put/head/delete/list used by the end-to-end `run*`
  wrappers; its `list` implements S3 prefix/delimiter grouping.
-/

namespace R2

/-- JavaScript `s.startsWith(t)`. -/
def jsStartsWith (s t : String) : Bool := t.data.isPrefixOf s.data

/-- JavaScript `s.endsWith(t)`. -/
def jsEndsWith (s t : String) : Bool := t.data.isSuffixOf s.data

/-- JavaScript `s.length` (character count; equal to UTF-16 length on ASCII). -/
def jsLen (s : String) : Nat := s.data.length

/-- JavaScript `s.slice(n)` / `s.substring(n)` for `n ≥ 0`. -/
def jsDrop (s : String) (n : Nat) : String := String.mk (s.data.drop n)

/-- Cache entry for R2 object metadata (interface `R2CacheEntry`). -/
structure R2CacheEntry where
  size : Nat
  lastModified : Nat
  etag : String
deriving DecidableEq

/-- The metadata cache: `Map<string, R2CacheEntry>` as an association list. -/
abbrev Cache := List (String × R2CacheEntry)

/-- `cache.get(key)`. -/
def cacheGet (c : Cache) (k : String) : Option R2CacheEntry :=
  (c.find? (fun e => e.1 == k)).map (fun e => e.2)

/-- `cache.has(key)`. -/
def cacheHas (c : Cache) (k : String) : Bool := (cacheGet c k).isSome

/-- `cache.set(key, v)` (unconditional overwrite). -/
def cacheSet (c : Cache) (k : String) (v : R2CacheEntry) : Cache :=
  (k, v) :: c.filter (fun e => e.1 != k)

/-- `cache.delete(key)`. -/
def cacheDelete (c : Cache) (k : String) : Cache :=
  c.filter (fun e => e.1 != k)

/-- Raw store-level failure, as classified by `isNotFoundError`:
`notFound` stands for the `NoSuchKey` / HTTP 404 signals, `other` for
everything else. -/
inductive StoreErr where
  | notFound
  | other (msg : String)
deriving DecidableEq

/-- `isNotFoundError(error)`. -/
def isNotFoundError : StoreErr → Bool
  | .notFound => true
  | .other _ => false

/-- The `Error`s thrown by the facade operations, one constructor per
distinct message shape in the source. -/
inductive R2Error where
  | fileNotFound (path : String)
  | readFailed (path : String)
  | writeFailed (path : String)
  | existsFailed (path : String)
  | deleteFailed (path : String)
  | listFailed (path : String)
  | deleteDirFailed (path : String)
  | statFailed (path : String)
deriving DecidableEq

/-- Facade state: the configured namespace (`options.prefix`, written
`pfx` since `prefix` is reserved in Lean) and the metadata cache. -/
structure FS where
  pfx : String
  cache : Cache
deriving DecidableEq

/-- `getR2Key(path)`: strip one leading `/`, then apply the namespace
(`prefix ?` truthiness = non-empty). -/
def getR2Key (pfx path : String) : String :=
  let normalizedPath := if jsStartsWith path "/" then jsDrop path 1 else path
  if pfx == "" then normalizedPath else pfx ++ "/" ++ normalizedPath

/-- `getLocalPath(key)`: remove the `prefix + "/"` if it is there. -/
def getLocalPath (pfx key : String) : String :=
  if pfx != "" && jsStartsWith key (pfx ++ "/") then jsDrop key (jsLen pfx + 1)
  else key

/-- `streamToString(stream)`: a falsy body yields `""`; otherwise the
chunks concatenate and UTF-8 decode back to the stored string. -/
def streamToString : Option String → String
  | none => ""
  | some s => s

/-- `GetObjectCommandOutput` fields the code reads. -/
structure GetOutput where
  body : Option String
  contentLength : Option Nat
  lastModified : Option Nat
  etag : Option String
deriving DecidableEq

/-- `PutObjectCommand` response fields the code reads. -/
structure PutOutput where
  etag : Option String
deriving DecidableEq

/-- `HeadObjectCommandOutput` fields the code reads. -/
structure HeadOutput where
  contentLength : Option Nat
  lastModified : Option Nat
  etag : Option String
deriving DecidableEq

/-- One element of `ListObjectsV2CommandOutput.Contents`. -/
structure ListedObject where
  key : Option String
  size : Option Nat
  lastModified : Option Nat
  etag : Option String
deriving DecidableEq

/-- `ListObjectsV2CommandOutput` fields the code reads. -/
structure ListOutput where
  contents : Option (List ListedObject)
  commonPrefixes : Option (List (Option String))
deriving DecidableEq

/-- `FileStats` as built by `stat` (the three `is*` closures return
constants, modelled as `Bool` fields). -/
structure FileStats where
  size : Nat
  mtime : Nat
  ctime : Nat
  atime : Nat
  mode : Nat
  isFile : Bool
  isDirectory : Bool
  isSymbolicLink : Bool
deriving DecidableEq

/-- `readFile(path)` given the store's response to the `GetObjectCommand`. -/
def readFile (st : FS) (resp : Except StoreErr GetOutput) (path : String) :
    Except R2Error String × FS :=
  let key := getR2Key st.pfx path
  match resp with
  | .error e =>
    if isNotFoundError e then (.error (.fileNotFound path), st)
    else (.error (.readFailed path), st)
  | .ok r =>
    let content := streamToString r.body
    match r.contentLength, r.lastModified with
    | some len, some lm =>
      (.ok content, { st with cache := cacheSet st.cache key ⟨len, lm, r.etag.getD ""⟩ })
    | _, _ => (.ok content, st)

/-- `mimeTypes` lookup table in `getContentType`. -/
def mimeTypes : String → Option String
  | "json" => some "application/json"
  | "txt" => some "text/plain"
  | "md" => some "text/markdown"
  | "html" => some "text/html"
  | "css" => some "text/css"
  | "js" => some "application/javascript"
  | "ts" => some "application/typescript"
  | "xml" => some "application/xml"
  | "pdf" => some "application/pdf"
  | "png" => some "image/png"
  | "jpg" => some "image/jpeg"
  | "jpeg" => some "image/jpeg"
  | "gif" => some "image/gif"
  | "svg" => some "image/svg+xml"
  | _ => none

/-- `getContentType(path)`: extension after the last `.`, lowercased. -/
def getContentType (path : String) : String :=
  let ext := ((path.splitOn ".").getLastD "").toLower
  (mimeTypes ext).getD "application/octet-stream"

/-- `writeFile(path, content)` given the put response; `now` is the
`new Date()` timestamp and the cached size is `Buffer.byteLength(content, "utf-8")`. -/
def writeFile (st : FS) (resp : Except StoreErr PutOutput) (now : Nat)
    (path content : String) : Except R2Error Unit × FS :=
  let key := getR2Key st.pfx path
  match resp with
  | .error _ => (.error (.writeFailed path), st)
  | .ok r =>
    (.ok (),
     { st with cache := cacheSet st.cache key ⟨content.utf8ByteSize, now, r.etag.getD ""⟩ })

/-- `exists(path)` given the head response (only consulted on cache miss). -/
def existsOp (st : FS) (resp : Except StoreErr HeadOutput) (path : String) :
    Except R2Error Bool × FS :=
  let key := getR2Key st.pfx path
  if cacheHas st.cache key then (.ok true, st)
  else
    match resp with
    | .error e =>
      if isNotFoundError e then (.ok false, st)
      else (.error (.existsFailed path), st)
    | .ok r =>
      match r.contentLength, r.lastModified with
      | some len, some lm =>
        (.ok true, { st with cache := cacheSet st.cache key ⟨len, lm, r.etag.getD ""⟩ })
      | _, _ => (.ok true, st)

/-- `deleteFile(path)` given the delete response: the cache entry is
removed after a successful send; a `NotFound` error is swallowed. -/
def deleteFile (st : FS) (resp : Except StoreErr Unit) (path : String) :
    Except R2Error Unit × FS :=
  let key := getR2Key st.pfx path
  match resp with
  | .ok _ => (.ok (), { st with cache := cacheDelete st.cache key })
  | .error e =>
    if isNotFoundError e then (.ok (), st)
    else (.error (.deleteFailed path), st)

/-- `readDir`'s per-object loop body over `response.Contents`
(`acc` carries the entries list and the cache). -/
def readDirStep (pfx normalizedPath pre : String)
    (acc : List String × Cache) (obj : ListedObject) : List String × Cache :=
  match obj.key with
  | some k =>
    if k != "" && k != pre then
      let localPath := getLocalPath pfx k
      let fileName := jsDrop localPath (jsLen normalizedPath)
      if fileName != "" && !(fileName.data.contains '/') then
        let cache2 :=
          match obj.size, obj.lastModified with
          | some sz, some lm => cacheSet acc.2 k ⟨sz, lm, obj.etag.getD ""⟩
          | _, _ => acc.2
        (acc.1 ++ [fileName], cache2)
      else acc
    else acc
  | none => acc

/-- `s.replace(/\/$/, "")`: drop one trailing slash if present. -/
def stripTrailingSlash (s : String) : String :=
  if jsEndsWith s "/" then String.mk s.data.dropLast else s

/-- `readDir`'s loop body over `response.CommonPrefixes`. -/
def readDirCpStep (pfx normalizedPath : String) (acc : List String)
    (cp : Option String) : List String :=
  match cp with
  | some c =>
    if c != "" then
      let localPath := getLocalPath pfx c
      let dirName := stripTrailingSlash (jsDrop localPath (jsLen normalizedPath))
      if dirName != "" then acc ++ [dirName ++ "/"] else acc
    else acc
  | none => acc

/-- Comparison of strings as JavaScript `Array.prototype.sort` compares
them (lexicographic by code unit; code points coincide on ASCII). -/
def charsLt : List Char → List Char → Bool
  | [], [] => false
  | [], _ :: _ => true
  | _ :: _, [] => false
  | c :: cs, d :: ds => if c = d then charsLt cs ds else decide (c < d)

/-- Insert into a sorted list (insertion step of `entries.sort()`). -/
def insertSorted (x : String) : List String → List String
  | [] => [x]
  | y :: ys => if charsLt x.data y.data then x :: y :: ys else y :: insertSorted x ys

/-- `entries.sort()` (default lexicographic comparator). -/
def sortJs (l : List String) : List String :=
  l.foldl (fun acc x => insertSorted x acc) []

/-- The key prefix sent in `readDir` / `deleteDir` list requests:
`getR2Key` of the path normalized to end with `/`. -/
def dirListKey (pfx path : String) : String :=
  let normalizedPath := if jsEndsWith path "/" then path else path ++ "/"
  getR2Key pfx normalizedPath

/-- `readDir(path)` given the list (prefix + delimiter `/`) response. -/
def readDir (st : FS) (resp : Except StoreErr ListOutput) (path : String) :
    Except R2Error (List String) × FS :=
  let normalizedPath := if jsEndsWith path "/" then path else path ++ "/"
  let pre := getR2Key st.pfx normalizedPath
  match resp with
  | .error _ => (.error (.listFailed path), st)
  | .ok r =>
    let afterFiles :=
      match r.contents with
      | some objs => objs.foldl (readDirStep st.pfx normalizedPath pre) ([], st.cache)
      | none => ([], st.cache)
    let entries :=
      match r.commonPrefixes with
      | some cps => cps.foldl (readDirCpStep st.pfx normalizedPath) afterFiles.1
      | none => afterFiles.1
    (.ok (sortJs entries), { st with cache := afterFiles.2 })

/-- The keys `deleteDir` extracts from a list response for the batch
delete: objects with a truthy (present, non-empty) `Key`. -/
def deleteDirKeys (r : ListOutput) : List String :=
  match r.contents with
  | none => []
  | some objs =>
    (objs.filter (fun o => o.key.getD "" != "")).map (fun o => o.key.getD "")

/-- `deleteDir(path)` given the unfiltered list response and the batch
delete response; cache entries of the listed keys are removed only after
the batch delete succeeds. -/
def deleteDir (st : FS) (listResp : Except StoreErr ListOutput)
    (delResp : Except StoreErr Unit) (path : String) : Except R2Error Unit × FS :=
  match listResp with
  | .error _ => (.error (.deleteDirFailed path), st)
  | .ok r =>
    match r.contents with
    | none => (.ok (), st)
    | some objs =>
      if objs.isEmpty then (.ok (), st)
      else
        let keys := (objs.filter (fun o => o.key.getD "" != "")).map (fun o => o.key.getD "")
        if keys.isEmpty then (.ok (), st)
        else
          match delResp with
          | .error _ => (.error (.deleteDirFailed path), st)
          | .ok _ => (.ok (), { st with cache := keys.foldl cacheDelete st.cache })

/-- `stat(path)` given the head response (only consulted on cache miss);
`now` stands for the `new Date()` fallbacks. -/
def stat (st : FS) (resp : Except StoreErr HeadOutput) (now : Nat)
    (path : String) : Except R2Error FileStats × FS :=
  let key := getR2Key st.pfx path
  match cacheGet st.cache key with
  | some cached =>
    (.ok ⟨cached.size, cached.lastModified, cached.lastModified, cached.lastModified,
      0o644, true, false, false⟩, st)
  | none =>
    match resp with
    | .error e =>
      if isNotFoundError e then (.error (.fileNotFound path), st)
      else (.error (.statFailed path), st)
    | .ok r =>
      let size := r.contentLength.getD 0
      let mtime := r.lastModified.getD now
      (.ok ⟨size, mtime, mtime, mtime, 0o644, true, false, false⟩,
       { st with cache := cacheSet st.cache key ⟨size, mtime, r.etag.getD ""⟩ })

/-! ## Ideal in-memory store

Deterministic S3-compatible store semantics, used to close the loop for
the end-to-end properties ("no interleaving operation, no external
mutation"): get/head answer from the map, put overwrites, delete of a
missing key succeeds (S3 `DeleteObject` semantics), list implements
prefix filtering with optional `/`-delimiter grouping. -/

/-- A stored object: body plus metadata. -/
structure StoreObj where
  body : String
  lastModified : Nat
  etag : String
deriving DecidableEq

/-- The bucket contents, an association list from key to object. -/
abbrev Store := List (String × StoreObj)

/-- Look up a key in the store. -/
def storeLookup (s : Store) (k : String) : Option StoreObj :=
  (s.find? (fun e => e.1 == k)).map (fun e => e.2)

/-- Put: overwrite the object at a key. -/
def storeInsert (s : Store) (k : String) (o : StoreObj) : Store :=
  (k, o) :: s.filter (fun e => e.1 != k)

/-- Delete one key (succeeds whether or not the key is present). -/
def storeRemove (s : Store) (k : String) : Store :=
  s.filter (fun e => e.1 != k)

/-- Batch delete a list of keys. -/
def storeBatchRemove (s : Store) (ks : List String) : Store :=
  s.filter (fun e => !(ks.contains e.1))

/-- Response to `GetObjectCommand`. -/
def storeGet (s : Store) (k : String) : Except StoreErr GetOutput :=
  match storeLookup s k with
  | none => .error .notFound
  | some o => .ok ⟨some o.body, some o.body.utf8ByteSize, some o.lastModified, some o.etag⟩

/-- Response to `HeadObjectCommand`. -/
def storeHead (s : Store) (k : String) : Except StoreErr HeadOutput :=
  match storeLookup s k with
  | none => .error .notFound
  | some o => .ok ⟨some o.body.utf8ByteSize, some o.lastModified, some o.etag⟩

/-- The store entries whose key starts with `pre`. -/
def listMatching (s : Store) (pre : String) : Store :=
  s.filter (fun e => jsStartsWith e.1 pre)

/-- Present a store entry as a `Contents` element. -/
def toListedObject (e : String × StoreObj) : ListedObject :=
  ⟨some e.1, some e.2.body.utf8ByteSize, some e.2.lastModified, some e.2.etag⟩

/-- The common prefix a key contributes under delimiter grouping, if its
remainder past `pre` still contains a `/`. -/
def cpOfKey (pre key : String) : Option String :=
  let rem := key.data.drop pre.data.length
  if rem.contains '/' then
    some (String.mk (pre.data ++ rem.takeWhile (fun c => c != '/') ++ ['/']))
  else none

/-- Append an element if not already present (first-occurrence dedup). -/
def insertAbsent (acc : List String) (c : String) : List String :=
  if acc.contains c then acc else acc ++ [c]

/-- Response to `ListObjectsV2Command` with `Delimiter: "/"`: direct
objects in `Contents`, grouped deeper keys as `CommonPrefixes`; empty
collections are omitted (`undefined`) as the AWS SDK does. -/
def storeListDelim (s : Store) (pre : String) : ListOutput :=
  let matching := listMatching s pre
  let files := matching.filter
    (fun e => !((e.1.data.drop pre.data.length).contains '/'))
  let cps := (matching.filterMap (fun e => cpOfKey pre e.1)).foldl insertAbsent []
  ⟨if files.isEmpty then none else some (files.map toListedObject),
   if cps.isEmpty then none else some (cps.map some)⟩

/-- Response to `ListObjectsV2Command` without a delimiter: every key
under the prefix, at every depth. -/
def storeListAll (s : Store) (pre : String) : ListOutput :=
  let matching := listMatching s pre
  ⟨if matching.isEmpty then none else some (matching.map toListedObject), none⟩

/-- A facade instance paired with the bucket it talks to. -/
structure World where
  fs : FS
  store : Store
deriving DecidableEq

/-- `readFile` run against the ideal store. -/
def runReadFile (w : World) (p : String) : Except R2Error String × World :=
  let key := getR2Key w.fs.pfx p
  let r := readFile w.fs (storeGet w.store key) p
  (r.1, ⟨r.2, w.store⟩)

/-- `writeFile` run against the ideal store (`put` always succeeds and
stores the body; the returned etag is an arbitrary fixed tag). -/
def runWriteFile (w : World) (now : Nat) (p c : String) : Except R2Error Unit × World :=
  let key := getR2Key w.fs.pfx p
  let r := writeFile w.fs (.ok ⟨some "etag"⟩) now p c
  (r.1, ⟨r.2, storeInsert w.store key ⟨c, now, "etag"⟩⟩)

/-- `exists` run against the ideal store. -/
def runExists (w : World) (p : String) : Except R2Error Bool × World :=
  let key := getR2Key w.fs.pfx p
  let r := existsOp w.fs (storeHead w.store key) p
  (r.1, ⟨r.2, w.store⟩)

/-- `deleteFile` run against the ideal store (`DeleteObject` succeeds
whether or not the key exists). -/
def runDeleteFile (w : World) (p : String) : Except R2Error Unit × World :=
  let key := getR2Key w.fs.pfx p
  let r := deleteFile w.fs (.ok ()) p
  (r.1, ⟨r.2, storeRemove w.store key⟩)

/-- `readDir` run against the ideal store (list with delimiter `/`). -/
def runReadDir (w : World) (p : String) : Except R2Error (List String) × World :=
  let r := readDir w.fs (.ok (storeListDelim w.store (dirListKey w.fs.pfx p))) p
  (r.1, ⟨r.2, w.store⟩)

/-- `deleteDir` run against the ideal store: unfiltered list, then a
batch delete of exactly the keys the facade extracts. -/
def runDeleteDir (w : World) (p : String) : Except R2Error Unit × World :=
  let lr := storeListAll w.store (dirListKey w.fs.pfx p)
  let ks := deleteDirKeys lr
  let r := deleteDir w.fs (.ok lr) (.ok ()) p
  (r.1, ⟨r.2, storeBatchRemove w.store ks⟩)

/-- `stat` run against the ideal store. -/
def runStat (w : World) (now : Nat) (p : String) : Except R2Error FileStats × World :=
  let key := getR2Key w.fs.pfx p
  let r := stat w.fs (storeHead w.store key) now p
  (r.1, ⟨r.2, w.store⟩)

end R2

deriving instance DecidableEq for Except

namespace R2

/-! ## Basic lemmas about the cache and the ideal store -/

theorem cacheGet_cacheSet_self (c : Cache) (k : String) (v : R2CacheEntry) :
    cacheGet (cacheSet c k v) k = some v := by
  simp [cacheGet, cacheSet, List.find?]

theorem cacheGet_cacheDelete_self (c : Cache) (k : String) :
    cacheGet (cacheDelete c k) k = none := by
  simp only [cacheGet, cacheDelete, Option.map_eq_none']
  rw [List.find?_eq_none]
  intro x hx
  rcases List.mem_filter.mp hx with ⟨-, h2⟩
  simpa using h2

theorem cacheGet_cacheDelete_none (c : Cache) (k q : String)
    (h : cacheGet c q = none) : cacheGet (cacheDelete c k) q = none := by
  simp only [cacheGet, cacheDelete, Option.map_eq_none'] at *
  rw [List.find?_eq_none] at h ⊢
  intro x hx
  exact h x (List.mem_filter.mp hx).1

theorem cacheGet_foldl_cacheDelete (ks : List String) (c : Cache) (q : String)
    (h : q ∈ ks ∨ cacheGet c q = none) :
    cacheGet (ks.foldl cacheDelete c) q = none := by
  induction ks generalizing c with
  | nil => simpa using h.resolve_left (by simp)
  | cons k t ih =>
    simp only [List.foldl_cons]
    rcases h with h | h
    · rcases List.mem_cons.mp h with rfl | h
      · exact ih _ (Or.inr (cacheGet_cacheDelete_self _ _))
      · exact ih _ (Or.inl h)
    · exact ih _ (Or.inr (cacheGet_cacheDelete_none _ _ _ h))

theorem storeLookup_storeInsert_self (s : Store) (k : String) (o : StoreObj) :
    storeLookup (storeInsert s k o) k = some o := by
  simp [storeLookup, storeInsert, List.find?]

theorem storeLookup_storeRemove_self (s : Store) (k : String) :
    storeLookup (storeRemove s k) k = none := by
  simp only [storeLookup, storeRemove, Option.map_eq_none']
  rw [List.find?_eq_none]
  intro x hx
  rcases List.mem_filter.mp hx with ⟨-, h2⟩
  simpa using h2

theorem storeLookup_storeBatchRemove (s : Store) (ks : List String) (k : String)
    (h : k ∈ ks) : storeLookup (storeBatchRemove s ks) k = none := by
  simp only [storeLookup, storeBatchRemove, Option.map_eq_none']
  rw [List.find?_eq_none]
  intro x hx
  rcases List.mem_filter.mp hx with ⟨-, h2⟩
  simp only [Bool.not_eq_true'] at h2
  intro hk
  rw [beq_iff_eq] at hk
  rw [hk] at h2
  simp [List.elem_iff, h] at h2

end R2

namespace R2

/-! ## Lemmas about the path-to-key codec -/

theorem jsStartsWith_iff (s t : String) : jsStartsWith s t = true ↔ t.data <+: s.data := by
  simp [jsStartsWith, List.isPrefixOf_iff_prefix]

theorem getR2Key_of_not_slash (pfx p : String) (h : jsStartsWith p "/" = false) :
    getR2Key pfx p = if pfx = "" then p else pfx ++ "/" ++ p := by
  simp [getR2Key, h]

theorem getR2Key_startsWith (pfx a b : String) (ha : jsStartsWith a "/" = false)
    (hb : jsStartsWith b "/" = false) (hab : jsStartsWith a b = true) :
    jsStartsWith (getR2Key pfx a) (getR2Key pfx b) = true := by
  rw [getR2Key_of_not_slash _ _ ha, getR2Key_of_not_slash _ _ hb]
  by_cases hp : pfx = ""
  · simpa [hp] using hab
  · simp only [if_neg hp]
    rw [jsStartsWith_iff] at hab ⊢
    rw [String.data_append, String.data_append, String.data_append, String.data_append,
        List.append_assoc, List.append_assoc]
    exact (List.prefix_append_right_inj _).mpr ((List.prefix_append_right_inj _).mpr hab)

theorem string_eq_of_data_eq (a b : String) (h : a.data = b.data) : a = b := by
  cases a; cases b; exact congrArg String.mk h

theorem getR2Key_inj (pfx a b : String) (ha : jsStartsWith a "/" = false)
    (hb : jsStartsWith b "/" = false) (hne : a ≠ b) :
    getR2Key pfx a ≠ getR2Key pfx b := by
  rw [getR2Key_of_not_slash _ _ ha, getR2Key_of_not_slash _ _ hb]
  by_cases hp : pfx = ""
  · simpa [hp] using hne
  · simp only [if_neg hp]
    intro h
    apply hne
    have hd := congrArg String.data h
    rw [String.data_append, String.data_append, String.data_append, String.data_append,
        List.append_assoc, List.append_assoc] at hd
    exact string_eq_of_data_eq _ _
      (List.append_cancel_left (List.append_cancel_left hd))

theorem getR2Key_ne_empty (pfx p : String) (hp : p ≠ "") (hs : jsStartsWith p "/" = false) :
    getR2Key pfx p ≠ "" := by
  rw [getR2Key_of_not_slash _ _ hs]
  by_cases h : pfx = ""
  · simpa [h] using hp
  · simp only [if_neg h]
    intro he
    have hd := congrArg String.data he
    rw [String.data_append, String.data_append] at hd
    simp at hd

theorem getLocalPath_getR2Key (pfx p : String) (h : jsStartsWith p "/" = false) :
    getLocalPath pfx (getR2Key pfx p) = p := by
  rw [getR2Key_of_not_slash _ _ h]
  by_cases hp : pfx = ""
  · simp [hp, getLocalPath]
  · simp only [if_neg hp]
    have h1 : (pfx != "") = true := by simpa using hp
    have h2 : jsStartsWith (pfx ++ "/" ++ p) (pfx ++ "/") = true := by
      rw [jsStartsWith_iff, String.data_append]
      exact ⟨p.data, rfl⟩
    have h3 : jsDrop (pfx ++ "/" ++ p) (jsLen pfx + 1) = p := by
      unfold jsDrop jsLen
      rw [String.data_append, String.data_append]
      rw [show pfx.data ++ "/".data ++ p.data = (pfx.data ++ ['/']) ++ p.data by simp]
      rw [List.drop_left' (by simp)]
    rw [getLocalPath, h1, h2]
    simpa using h3

end R2

namespace R2

/-! ## Claim theorems (first group) -/

/-- C1: for every path `p` and every string content `c`, a successful
`writeFile(p, c)` followed by `readFile(p)`, with no interleaving
operation and no external mutation of the store, returns exactly `c`. -/
theorem writeFile_readFile_roundTrip (w : World) (now : Nat) (p c : String) :
    (runWriteFile w now p c).1 = .ok () ∧
    (runReadFile (runWriteFile w now p c).2 p).1 = .ok c := by
  refine ⟨rfl, ?_⟩
  simp only [runReadFile, runWriteFile, writeFile, storeGet, storeLookup_storeInsert_self,
    readFile, streamToString]

/-- C3: absent concurrent interference and external store mutation,
after a successful `writeFile(p, c)`, `exists(p)` returns true, and
after a successful `deleteFile(p)`, `exists(p)` returns false. -/
theorem exists_after_write_delete (w : World) (now : Nat) (p c : String) :
    (runExists (runWriteFile w now p c).2 p).1 = .ok true ∧
    (runDeleteFile w p).1 = .ok () ∧
    (runExists (runDeleteFile w p).2 p).1 = .ok false := by
  refine ⟨?_, rfl, ?_⟩
  · simp only [runExists, runWriteFile, writeFile, existsOp]
    simp [cacheHas, cacheGet_cacheSet_self]
  · simp only [runExists, runDeleteFile, deleteFile, existsOp, cacheHas,
      cacheGet_cacheDelete_self, Option.isSome_none, Bool.false_eq_true, if_false,
      storeHead, storeLookup_storeRemove_self, isNotFoundError, if_true]

/-- C10: if the store's get succeeds but the response carries no body,
`readFile` returns the empty string rather than failing. -/
theorem readFile_no_body (st : FS) (cl lm : Option Nat) (et : Option String) (p : String) :
    (readFile st (.ok ⟨none, cl, lm, et⟩) p).1 = .ok "" := by
  cases cl <;> cases lm <;> simp [readFile, streamToString]

/-- C7: if the cache holds an entry for the encoded key of `p`, then
`stat(p)` returns statistics synthesized entirely from that entry (size
from the cached size; mtime, ctime and atime all the cached
lastModified; isFile true, isDirectory false, isSymbolicLink false)
without issuing any store call: the result is the same for every
possible store response `resp` and the state is unchanged. -/
theorem stat_cached (st : FS) (resp : Except StoreErr HeadOutput) (now : Nat)
    (p : String) (e : R2CacheEntry)
    (h : cacheGet st.cache (getR2Key st.pfx p) = some e) :
    stat st resp now p =
      (.ok ⟨e.size, e.lastModified, e.lastModified, e.lastModified, 0o644,
        true, false, false⟩, st) := by
  simp [stat, h]

theorem stat_cached_witness :
    cacheGet ([("a", ⟨5, 7, "e"⟩)] : Cache) (getR2Key "" "a") = some ⟨5, 7, "e"⟩ ∧
    stat ⟨"", [("a", ⟨5, 7, "e"⟩)]⟩ (.error (.other "boom")) 0 "a" =
      (.ok ⟨5, 7, 7, 7, 0o644, true, false, false⟩, ⟨"", [("a", ⟨5, 7, "e"⟩)]⟩) :=
  ⟨rfl, stat_cached ⟨"", [("a", ⟨5, 7, "e"⟩)]⟩ (.error (.other "boom")) 0 "a" ⟨5, 7, "e"⟩ rfl⟩

/-- C8: for every logical path `p` not starting with `/` and not equal
to the configured prefix, `decode(encode(p)) = p`, where encode is
`getR2Key` and decode is `getLocalPath`, for any configured namespace
prefix including the empty one. -/
theorem encode_decode_inverse (pfx p : String)
    (h1 : jsStartsWith p "/" = false) (_hne : p ≠ pfx) :
    getLocalPath pfx (getR2Key pfx p) = p :=
  getLocalPath_getR2Key pfx p h1

theorem encode_decode_inverse_witness :
    (jsStartsWith "a/b.txt" "/" = false ∧ "a/b.txt" ≠ "ns") ∧
    getLocalPath "ns" (getR2Key "ns" "a/b.txt") = "a/b.txt" :=
  ⟨⟨rfl, by decide⟩, encode_decode_inverse "ns" "a/b.txt" rfl (by decide)⟩

end R2

namespace R2

/-! ## Claim theorems (second group) -/

/-- C2 counterexample: when the store delete fails with `NotFound`,
`deleteFile` succeeds (the error is swallowed) but the cache entry for
the encoded key is NOT removed — refuting the claim that the cache
entry is removed regardless of the store's response. -/
theorem deleteFile_notFound_keeps_cache :
    (deleteFile ⟨"", [("a", ⟨1, 2, "e"⟩)]⟩ (.error .notFound) "a").1 = .ok () ∧
    cacheGet (deleteFile ⟨"", [("a", ⟨1, 2, "e"⟩)]⟩ (.error .notFound) "a").2.cache
      (getR2Key "" "a") = some ⟨1, 2, "e"⟩ := ⟨rfl, rfl⟩

/-- C2 amended: `deleteFile(p)` removes the cache entry for the encoded
key of `p` exactly when the store delete succeeds; a `NotFound` store
error is swallowed as success but leaves the cache (and state)
unchanged; any other store error fails with `DeleteFailure`, also
leaving the state unchanged. -/
theorem deleteFile_cache_behavior (st : FS) (p msg : String) :
    deleteFile st (.ok ()) p =
      (.ok (), { st with cache := cacheDelete st.cache (getR2Key st.pfx p) }) ∧
    deleteFile st (.error .notFound) p = (.ok (), st) ∧
    deleteFile st (.error (.other msg)) p = (.error (.deleteFailed p), st) :=
  ⟨rfl, rfl, rfl⟩

/-- C5: if the store contains exactly the objects `d/a.txt`, `d/b.json`
and `d/sub/c.md` under the configured namespace (shown for the empty
namespace and for namespace `ns`), `readDir("d")` returns exactly
`["a.txt", "b.json", "sub/"]`, lexicographically sorted, with the
simulated subdirectory marked by a trailing `/`. -/
theorem readDir_listing_shape :
    (runReadDir ⟨⟨"", []⟩, [("d/a.txt", ⟨"A", 3, "ea"⟩), ("d/b.json", ⟨"B", 4, "eb"⟩),
      ("d/sub/c.md", ⟨"C", 5, "ec"⟩)]⟩ "d").1 = .ok ["a.txt", "b.json", "sub/"] ∧
    (runReadDir ⟨⟨"ns", []⟩, [("ns/d/a.txt", ⟨"A", 3, "ea"⟩), ("ns/d/b.json", ⟨"B", 4, "eb"⟩),
      ("ns/d/sub/c.md", ⟨"C", 5, "ec"⟩)]⟩ "d").1 = .ok ["a.txt", "b.json", "sub/"] :=
  ⟨rfl, rfl⟩

/-- C4 failing input: with an empty namespace and a store holding only
`d/ab`, `readDir("d")` returns `["ab"]` but `readDir("/d")` returns
`["b"]` — both issue the same list request (same encoded prefix), yet
the computed entry names differ, because `readDir` cuts entry names at
`normalizedPath.length` characters of the decoded local path, which is
off by one when the logical path starts with `/`. -/
theorem readDir_leading_slash_mangles_names :
    (runReadDir ⟨⟨"", []⟩, [("d/ab", ⟨"Z", 0, "e"⟩)]⟩ "d").1 = .ok ["ab"] ∧
    (runReadDir ⟨⟨"", []⟩, [("d/ab", ⟨"Z", 0, "e"⟩)]⟩ "/d").1 = .ok ["b"] ∧
    dirListKey "" "/d" = dirListKey "" "d" ∧
    (runReadDir ⟨⟨"", []⟩, [("d/ab", ⟨"Z", 0, "e"⟩)]⟩ "/d").1 ≠
      (runReadDir ⟨⟨"", []⟩, [("d/ab", ⟨"Z", 0, "e"⟩)]⟩ "d").1 :=
  ⟨rfl, rfl, rfl, by decide⟩

/-- C9: every public operation that terminates by throwing (readFile,
writeFile, exists, stat, readDir, deleteDir, and deleteFile on a
non-NotFound error) leaves the metadata cache exactly as it was before
the call. -/
theorem throwing_ops_preserve_cache :
    (∀ st resp p err, (readFile st resp p).1 = .error err →
      (readFile st resp p).2.cache = st.cache) ∧
    (∀ st resp now p c err, (writeFile st resp now p c).1 = .error err →
      (writeFile st resp now p c).2.cache = st.cache) ∧
    (∀ st resp p err, (existsOp st resp p).1 = .error err →
      (existsOp st resp p).2.cache = st.cache) ∧
    (∀ st resp now p err, (stat st resp now p).1 = .error err →
      (stat st resp now p).2.cache = st.cache) ∧
    (∀ st resp p err, (readDir st resp p).1 = .error err →
      (readDir st resp p).2.cache = st.cache) ∧
    (∀ st lr dr p err, (deleteDir st lr dr p).1 = .error err →
      (deleteDir st lr dr p).2.cache = st.cache) ∧
    (∀ st p msg err, (deleteFile st (.error (.other msg)) p).1 = .error err →
      (deleteFile st (.error (.other msg)) p).2.cache = st.cache) := by
  refine ⟨?_, ?_, ?_, ?_, ?_, ?_, ?_⟩
  · intro st resp p err h
    match resp with
    | .error e => cases e <;> rfl
    | .ok r =>
      exfalso
      simp only [readFile] at h
      rcases hc : r.contentLength with - | len <;> rcases hl : r.lastModified with - | lm <;>
        simp [hc, hl] at h
  · intro st resp now p c err h
    match resp with
    | .error e => rfl
    | .ok r => simp [writeFile] at h
  · intro st resp p err h
    simp only [existsOp] at h ⊢
    by_cases hc : cacheHas st.cache (getR2Key st.pfx p)
    · simp [hc] at h
    · simp only [hc, Bool.false_eq_true, if_false] at h ⊢
      match resp with
      | .error e =>
        cases e
        · simp [isNotFoundError] at h
        · rfl
      | .ok r =>
        exfalso
        rcases hcl : r.contentLength with - | len <;> rcases hl : r.lastModified with - | lm <;>
          simp [hcl, hl] at h
  · intro st resp now p err h
    simp only [stat] at h ⊢
    rcases hg : cacheGet st.cache (getR2Key st.pfx p) with - | e
    · simp only [hg] at h ⊢
      match resp with
      | .error e => cases e <;> rfl
      | .ok r => simp at h
    · simp [hg] at h
  · intro st resp p err h
    match resp with
    | .error e => rfl
    | .ok r => simp [readDir] at h
  · intro st lr dr p err h
    match lr with
    | .error e => rfl
    | .ok r =>
      simp only [deleteDir] at h ⊢
      rcases hc : r.contents with - | objs
      · simp [hc] at h
      · simp only [hc] at h ⊢
        by_cases he : objs.isEmpty
        · simp [he] at h
        · simp only [he, Bool.false_eq_true, if_false] at h ⊢
          by_cases hk : ((objs.filter (fun o => o.key.getD "" != "")).map
              (fun o => o.key.getD "")).isEmpty
          · simp [hk] at h
          · simp only [hk, Bool.false_eq_true, if_false] at h ⊢
            match dr with
            | .error e => rfl
            | .ok u => simp at h
  · intro st p msg err h
    rfl

theorem throwing_ops_preserve_cache_witness :
    (readFile ⟨"", [("k", ⟨1, 2, "e"⟩)]⟩ (.error (.other "boom")) "p").2.cache
      = [("k", ⟨1, 2, "e"⟩)] :=
  throwing_ops_preserve_cache.1 ⟨"", [("k", ⟨1, 2, "e"⟩)]⟩ (.error (.other "boom")) "p"
    (.readFailed "p") rfl

end R2

namespace R2

/-! ## Claim theorems (recursive directory delete) -/

theorem mem_deleteDirKeys (s : Store) (pre k : String) (o : StoreObj)
    (hmem : (k, o) ∈ s) (hpre : jsStartsWith k pre = true) (hk : k ≠ "") :
    k ∈ deleteDirKeys (storeListAll s pre) := by
  have hmem2 : (k, o) ∈ s.filter (fun e => jsStartsWith e.1 pre) :=
    List.mem_filter.mpr ⟨hmem, by simpa using hpre⟩
  have hne : (s.filter (fun e => jsStartsWith e.1 pre)).isEmpty = false := by
    rcases hq : s.filter (fun e => jsStartsWith e.1 pre) with - | ⟨a, t⟩
    · rw [hq] at hmem2; simp at hmem2
    · rw [hq]; rfl
  simp only [deleteDirKeys, storeListAll, listMatching, hne, Bool.false_eq_true,
    if_false]
  refine List.mem_map.mpr ⟨toListedObject (k, o), ?_, rfl⟩
  refine List.mem_filter.mpr ⟨List.mem_map.mpr ⟨(k, o), hmem2, rfl⟩, ?_⟩
  simpa [toListedObject] using hk

theorem deleteDir_run_eq (st : FS) (lr : ListOutput) (p : String)
    (h : deleteDirKeys lr ≠ []) :
    deleteDir st (.ok lr) (.ok ()) p =
      (.ok (), { st with cache := (deleteDirKeys lr).foldl cacheDelete st.cache }) := by
  simp only [deleteDir, deleteDirKeys] at h ⊢
  rcases hc : lr.contents with - | objs
  · rw [hc] at h; simp at h
  · rw [hc] at h
    have hobjs : objs.isEmpty = false := by
      rcases objs with - | ⟨a, t⟩
      · simp at h
      · rfl
    have hkeys : ((objs.filter (fun o => o.key.getD "" != "")).map
        (fun o => o.key.getD "")).isEmpty = false := by
      rcases hq : (objs.filter (fun o => o.key.getD "" != "")).map
          (fun o => o.key.getD "") with - | ⟨a, t⟩
      · exact absurd hq h
      · rw [hq]; rfl
    simp only [hobjs, hkeys, Bool.false_eq_true, if_false]

theorem runDeleteDir_removes (w : World) (p q : String) (o : StoreObj)
    (hmem : (getR2Key w.fs.pfx q, o) ∈ w.store)
    (hpre : jsStartsWith (getR2Key w.fs.pfx q) (dirListKey w.fs.pfx p) = true)
    (hk : getR2Key w.fs.pfx q ≠ "") :
    (runDeleteDir w p).1 = .ok () ∧ (runExists (runDeleteDir w p).2 q).1 = .ok false := by
  have hkey := mem_deleteDirKeys w.store (dirListKey w.fs.pfx p) _ o hmem hpre hk
  have hne : deleteDirKeys (storeListAll w.store (dirListKey w.fs.pfx p)) ≠ [] := by
    intro hz; rw [hz] at hkey; simp at hkey
  constructor
  · simp [runDeleteDir, deleteDir_run_eq _ _ _ hne]
  · simp only [runDeleteDir, deleteDir_run_eq _ _ _ hne, runExists, existsOp, cacheHas,
      cacheGet_foldl_cacheDelete _ _ _ (Or.inl hkey), Option.isSome_none,
      Bool.false_eq_true, if_false, storeHead,
      storeLookup_storeBatchRemove _ _ _ hkey, isNotFoundError, if_true]

/-- C6: starting from any world, after creating `d/x.txt` and
`d/y/z.txt`, a successful `deleteDir("d")` batch-deletes every listed
object under the prefix at every depth and removes each from the cache,
so `exists("d/x.txt")` and `exists("d/y/z.txt")` are both false
afterwards. -/
theorem deleteDir_recursive (w : World) (t1 t2 : Nat) :
    ((runDeleteDir (runWriteFile (runWriteFile w t1 "d/x.txt" "X").2 t2
        "d/y/z.txt" "Y").2 "d").1 = .ok ()) ∧
    ((runExists (runDeleteDir (runWriteFile (runWriteFile w t1 "d/x.txt" "X").2 t2
        "d/y/z.txt" "Y").2 "d").2 "d/x.txt").1 = .ok false) ∧
    ((runExists (runDeleteDir (runWriteFile (runWriteFile w t1 "d/x.txt" "X").2 t2
        "d/y/z.txt" "Y").2 "d").2 "d/y/z.txt").1 = .ok false) := by
  set w2 := (runWriteFile (runWriteFile w t1 "d/x.txt" "X").2 t2 "d/y/z.txt" "Y").2 with hw2
  have hpfx : w2.fs.pfx = w.fs.pfx := rfl
  have hstore : w2.store = storeInsert
      (storeInsert w.store (getR2Key w.fs.pfx "d/x.txt") ⟨"X", t1, "etag"⟩)
      (getR2Key w.fs.pfx "d/y/z.txt") ⟨"Y", t2, "etag"⟩ := rfl
  have hxy : getR2Key w.fs.pfx "d/x.txt" ≠ getR2Key w.fs.pfx "d/y/z.txt" :=
    getR2Key_inj _ _ _ rfl rfl (by decide)
  have hmem1 : (getR2Key w2.fs.pfx "d/x.txt", (⟨"X", t1, "etag"⟩ : StoreObj)) ∈ w2.store := by
    rw [hpfx, hstore, storeInsert]
    refine List.mem_cons_of_mem _ (List.mem_filter.mpr ⟨?_, ?_⟩)
    · exact List.mem_cons_self _ _
    · simpa using hxy
  have hmem2 : (getR2Key w2.fs.pfx "d/y/z.txt", (⟨"Y", t2, "etag"⟩ : StoreObj)) ∈ w2.store := by
    rw [hpfx, hstore, storeInsert]
    exact List.mem_cons_self _ _
  have hdk : dirListKey w2.fs.pfx "d" = getR2Key w2.fs.pfx "d/" := rfl
  have hpre1 : jsStartsWith (getR2Key w2.fs.pfx "d/x.txt") (dirListKey w2.fs.pfx "d") = true := by
    rw [hdk]; exact getR2Key_startsWith _ _ _ rfl rfl rfl
  have hpre2 : jsStartsWith (getR2Key w2.fs.pfx "d/y/z.txt") (dirListKey w2.fs.pfx "d") = true := by
    rw [hdk]; exact getR2Key_startsWith _ _ _ rfl rfl rfl
  have hk1 : getR2Key w2.fs.pfx "d/x.txt" ≠ "" := getR2Key_ne_empty _ _ (by decide) rfl
  have hk2 : getR2Key w2.fs.pfx "d/y/z.txt" ≠ "" := getR2Key_ne_empty _ _ (by decide) rfl
  obtain ⟨hok, hx⟩ := runDeleteDir_removes w2 "d" "d/x.txt" _ hmem1 hpre1 hk1
  obtain ⟨-, hy⟩ := runDeleteDir_removes w2 "d" "d/y/z.txt" _ hmem2 hpre2 hk2
  exact ⟨hok, hx, hy⟩

end R2
